import Mathlib

/-!
# Verification of the poketrends continuous-refresh scheduler

Shallow embedding, in Lean 4, of the core of the `poketrends` repository:
the continuous refresh scheduler (`ContinuousRefreshService`), its staleness
selector, blocking classifier, persistence layer, ETA estimation, and the
incremental harvester (`HarvestService`).

Modelling conventions:
* JS timestamps (epoch milliseconds, `Date.now()` and ISO strings read back
  with `new Date(s).getTime()`) are modelled as `ℤ` (milliseconds).
* A JS age value, `now - lastFetched` or `Infinity` when the entry is
  missing, is modelled as `WithTop ℤ` (`⊤` = `Infinity`).
* JS `null`/`undefined`-able fields are modelled as `Option`.
* `NaN`-able computed values (e.g. `Math.round(0/0)`) are modelled as
  `Option` with `none` = `NaN`.
* JS objects used as string-keyed records are modelled as association lists
  `List (String × _)`.
* `Math.round` on a nonnegative value is `⌊x + 1/2⌋`; the exact rational is
  used where the source divides JS doubles (the small integer ranges
  involved make the rational and double results agree at every point the
  theorems below evaluate).
-/

namespace PokeTrends

/-- 7 days in milliseconds: the stale threshold `7 * 24 * 60 * 60 * 1000`
used in `getNextPokemonToRefresh` and `getStaleEntries`. -/
def staleThresholdMs : ℤ := 7 * 24 * 60 * 60 * 1000

/-- One item of the item universe, as produced by `getAllPokemon`:
`{ id, name }`. -/
structure Pokemon where
  id : ℕ
  name : String
deriving DecidableEq, Repr

/-- The payload returned by the trends client for one (item, partition)
pair: the fields that `HarvestService.fetchAndSave` and
`ContinuousRefreshService.saveData` persist. -/
structure TrendsData where
  score : Option ℚ
  avgScore : Option ℚ
  maxScore : Option ℚ
  estimatedSearches : Option ℤ
  estimatedLabel : Option String
  topicId : Option String
  fallback : Bool
  error : Option String
deriving DecidableEq, Repr

/-- A persisted dataset entry `data.countries[country][name]`: the trends
payload plus the `lastFetched` timestamp (epoch ms; `none` = absent). -/
structure StoredEntry where
  score : Option ℚ
  avgScore : Option ℚ
  maxScore : Option ℚ
  estimatedSearches : Option ℤ
  estimatedLabel : Option String
  topicId : Option String
  fallback : Bool
  error : Option String
  lastFetched : Option ℤ
deriving DecidableEq, Repr

/-- Metadata of the continuous-refresh data file (`data.metadata`):
`loadData` defaults it to `{}` (no `lastUpdate` key, modelled `none`),
`saveData` sets `lastUpdate`. -/
structure Metadata where
  lastUpdate : Option ℤ
deriving DecidableEq, Repr

/-- The continuous-refresh data file: `{ countries, metadata }`, where
`countries` maps a country code to a map from item name to entry. -/
structure DataFile where
  countries : List (String × List (String × StoredEntry))
  metadata : Metadata
deriving DecidableEq, Repr

/-- Association-list lookup, the model of JS property access `obj?.[key]`. -/
def alookup {α : Type} (l : List (String × α)) (k : String) : Option α :=
  match l with
  | [] => none
  | (k', v) :: rest => if k' = k then some v else alookup rest k

/-- Association-list upsert, the model of JS assignment `obj[key] = v`. -/
def aupsert {α : Type} (l : List (String × α)) (k : String) (v : α) :
    List (String × α) :=
  match l with
  | [] => [(k, v)]
  | (k', v') :: rest =>
      if k' = k then (k, v) :: rest else (k', v') :: aupsert rest k v

/-- Two-level lookup `countries?.[country]?.[name]`. -/
def lookupEntry (countries : List (String × List (String × StoredEntry)))
    (country name : String) : Option StoredEntry :=
  (alookup countries country).bind (fun m => alookup m name)

/-- The fixed partition universe of `getNextPokemonToRefresh`:
`['US', 'JP', 'GB', 'ES', 'FR', 'DE']`. -/
def countriesList : List String := ["US", "JP", "GB", "ES", "FR", "DE"]

/-- One element of the `entries` array built by `getNextPokemonToRefresh`:
`{ name, id, country, age, lastFetched }`. -/
structure SelEntry where
  name : String
  id : ℕ
  country : String
  age : WithTop ℤ
  lastFetched : Option ℤ
deriving DecidableEq, Repr

/-- `existing?.lastFetched` for the pair (country, name) in the data file. -/
def lookupLastFetched (d : DataFile) (country name : String) : Option ℤ :=
  match alookup d.countries country with
  | none => none
  | some m =>
    match alookup m name with
    | none => none
    | some e => e.lastFetched

/-- The age computed by `getNextPokemonToRefresh`:
`existing?.lastFetched ? Date.now() - new Date(existing.lastFetched).getTime() : Infinity`. -/
def entryAge (d : DataFile) (country name : String) (now : ℤ) : WithTop ℤ :=
  match lookupLastFetched d country name with
  | none => ⊤
  | some t => ((now - t : ℤ) : WithTop ℤ)

/-- The `entries` array of `getNextPokemonToRefresh`, in its enumeration
order: outer loop over `allPokemon`, inner loop over `countries`. -/
def buildEntries (d : DataFile) (allPokemon : List Pokemon) (now : ℤ) :
    List SelEntry :=
  (allPokemon.map (fun p =>
    countriesList.map (fun c =>
      { name := p.name
        id := p.id
        country := c
        age := entryAge d c p.name now
        lastFetched := lookupLastFetched d c p.name }))).flatten

/-- `e.age > 7 * 24 * 60 * 60 * 1000`: the staleness test of
`entries.find(...)`. -/
def isStale (e : SelEntry) : Bool :=
  decide ((staleThresholdMs : WithTop ℤ) < e.age)

/-- `e.age < 7 * 24 * 60 * 60 * 1000`: the freshness test of
`entries.filter(...)` used for `cycleProgress` (strict inequality in the
source). -/
def isFresh (e : SelEntry) : Bool :=
  decide (e.age < (staleThresholdMs : WithTop ℤ))

/-- Stable insertion (descending by age) — the characteristic step of the
unique stable sort that `entries.sort((a, b) => b.age - a.age)` performs.
ECMAScript `Array.prototype.sort` is stable and the comparator
`b.age - a.age` (with `Infinity - Infinity = NaN` treated as `0`) orders
exactly by `age` descending in `WithTop ℤ`, ties keeping enumeration
order. -/
def insertByAge (e : SelEntry) : List SelEntry → List SelEntry
  | [] => [e]
  | x :: xs => if x.age ≤ e.age then e :: x :: xs else x :: insertByAge e xs

/-- Stable sort, descending by age: the model of
`entries.sort((a, b) => b.age - a.age)`. -/
def sortByAgeDesc : List SelEntry → List SelEntry
  | [] => []
  | x :: xs => insertByAge x (sortByAgeDesc xs)

/-- `Math.round((refreshedCount / total) * 100)` on exact rationals for
natural `r ≤ n`, `n > 0`: `⌊100r/n + 1/2⌋ = (200r + n) / (2n)`. -/
def mathRound100 (r n : ℕ) : ℕ := (200 * r + n) / (2 * n)

/-- The two outputs of one `getNextPokemonToRefresh` call: the returned
entry (or `null`) and the `cycleProgress` it stores in `this.stats`
(`none` = `NaN`, which `Math.round(refreshedCount / 0 * 100)` produces
when the entries array is empty). -/
def selectorRun (d : DataFile) (allPokemon : List Pokemon) (now : ℤ) :
    Option SelEntry × Option ℕ :=
  let entries := buildEntries d allPokemon now
  let sorted := sortByAgeDesc entries
  let refreshedCount := (sorted.filter isFresh).length
  let progress :=
    if sorted.length = 0 then none
    else some (mathRound100 refreshedCount sorted.length)
  (sorted.find? isStale, progress)

/-- `getNextPokemonToRefresh`: the returned entry. -/
def getNextPokemonToRefresh (d : DataFile) (allPokemon : List Pokemon)
    (now : ℤ) : Option SelEntry :=
  (selectorRun d allPokemon now).1

/-- The `cycleProgress` value stored by `getNextPokemonToRefresh`. -/
def cycleProgressOf (d : DataFile) (allPokemon : List Pokemon) (now : ℤ) :
    Option ℕ :=
  (selectorRun d allPokemon now).2

/-- The empty data file that `loadData` returns on a read or parse
failure: `{ countries: {}, metadata: {} }`. -/
def emptyDataFile : DataFile := { countries := [], metadata := { lastUpdate := none } }

/-- `loadData`: the read-and-parse outcome is `none` when `fs.readFile`
throws (file absent or unreadable), `some none` when the content does not
parse, and `some (some d)` on success; every failure is caught and turned
into the empty data file, so the function is total (never throws). -/
def loadData (r : Option (Option DataFile)) : DataFile :=
  match r with
  | some (some d) => d
  | _ => emptyDataFile

/-! ## Blocking classifier (`fetchWithBlockDetection`) -/

/-- `needle.isPrefixOf hay` on character lists. -/
def charsPre : List Char → List Char → Bool
  | [], _ => true
  | _ :: _, [] => false
  | a :: as, b :: bs => a == b && charsPre as bs

/-- Substring occurrence on character lists. -/
def charsSub (needle : List Char) : List Char → Bool
  | [] => needle.isEmpty
  | b :: bs => charsPre needle (b :: bs) || charsSub needle bs

/-- JS `hay.includes(pat)`. -/
def strIncludes (hay pat : String) : Bool :=
  charsSub pat.toList hay.toList

/-- The value produced by `this.trendsService.getTrends(...)` as observed
by `fetchWithBlockDetection`: a plain string, an object (with optional
`error` string and `fallback` flag), or a thrown error carrying a
message. -/
inductive TrendsOutcome where
  | str (s : String)
  | obj (error : Option String) (fallback : Bool) (data : TrendsData)
  | thrown (message : String)
deriving DecidableEq, Repr

/-- The classified result `fetchWithBlockDetection` returns:
`{ blocked: true }`, `{ success: true, data }`, or
`{ success: false, error }`. -/
inductive FetchResult where
  | blocked
  | success (data : TrendsData)
  | failure (error : String)
deriving DecidableEq, Repr

/-- `fetchWithBlockDetection`: string payloads containing `<!DOCTYPE` are
blocked; object results whose (non-empty) `error` contains
`Unexpected token` are blocked; object results flagged `fallback` are
soft failures; thrown errors whose message contains `Unexpected token` or
`302 Moved` are blocked; every other thrown error is a soft failure
carrying the message. A string payload without `<!DOCTYPE` falls through
the object checks (its `error`/`fallback` properties are `undefined`) and
is returned as success data (modelled with an empty payload marker). -/
def fetchWithBlockDetection (o : TrendsOutcome) : FetchResult :=
  match o with
  | .str s =>
      if strIncludes s "<!DOCTYPE" then .blocked
      else .success { score := none, avgScore := none, maxScore := none,
                      estimatedSearches := none, estimatedLabel := none,
                      topicId := none, fallback := false, error := some s }
  | .obj error fallback data =>
      if (error.getD "") ≠ "" && strIncludes (error.getD "") "Unexpected token" then .blocked
      else if fallback then .failure "Fallback used"
      else .success data
  | .thrown msg =>
      if strIncludes msg "Unexpected token" || strIncludes msg "302 Moved" then .blocked
      else .failure msg

/-! ## Scheduler state machine (`ContinuousRefreshService`) -/

/-- `this.stats`. `cycleProgress` is `Option ℕ` because the source can
store `NaN` there (see `cycleProgressOf`). -/
structure Stats where
  lastRun : Option ℤ
  successCount : ℕ
  failureCount : ℕ
  blockedCount : ℕ
  currentPokemon : Option String
  cycleProgress : Option ℕ
deriving DecidableEq, Repr

/-- The mutable service state: run flags, stats, and the data file the
service reads and writes through `loadData`/`saveData`. -/
structure ServiceState where
  isRunning : Bool
  isPaused : Bool
  stats : Stats
  data : DataFile
deriving DecidableEq, Repr

/-- `pause()`: sets `isPaused = true`. -/
def pause (st : ServiceState) : ServiceState :=
  { st with isPaused := true }

/-- `resume()`: sets `isPaused = false`. -/
def resume (st : ServiceState) : ServiceState :=
  { st with isPaused := false }

/-- `saveData(pokemon, trendsData)`: reloads the file, upserts
`data.countries[pokemon.country][pokemon.name] = { ...trendsData,
lastFetched: now }`, sets `metadata.lastUpdate = now`, writes back. -/
def saveDataUpsert (d : DataFile) (country name : String) (td : TrendsData)
    (now : ℤ) : DataFile :=
  let entry : StoredEntry :=
    { score := td.score, avgScore := td.avgScore, maxScore := td.maxScore,
      estimatedSearches := td.estimatedSearches,
      estimatedLabel := td.estimatedLabel, topicId := td.topicId,
      fallback := td.fallback, error := td.error, lastFetched := some now }
  let countryMap := (alookup d.countries country).getD []
  { countries := aupsert d.countries country (aupsert countryMap name entry)
    metadata := { lastUpdate := some now } }

/-- One pass of the classified-result branch of `refreshLoop` (source
lines 109–127): on `blocked`, increment `blockedCount`, call `pause()`,
and schedule `resume()` after 24 h (the returned `Option ℤ` is the
absolute time of the scheduled auto-resume, `none` when no timer is set);
on `success`, increment `successCount` and `saveData`; otherwise increment
`failureCount` and leave the data file untouched. All branches then set
`stats.lastRun = now`. -/
def handleResult (st : ServiceState) (p : SelEntry) (r : FetchResult)
    (now : ℤ) : ServiceState × Option ℤ :=
  match r with
  | .blocked =>
      (pause
        { st with stats := { st.stats with
            blockedCount := st.stats.blockedCount + 1, lastRun := some now } },
       some (now + 24 * 60 * 60 * 1000))
  | .success td =>
      ({ st with
          stats := { st.stats with
            successCount := st.stats.successCount + 1, lastRun := some now }
          data := saveDataUpsert st.data p.country p.name td now },
       none)
  | .failure _ =>
      ({ st with stats := { st.stats with
          failureCount := st.stats.failureCount + 1, lastRun := some now } },
       none)

/-- `Math.round` on an exact rational (`⌊q + 1/2⌋`, matching JS
round-half-up). -/
def jsRound (q : ℚ) : ℤ := ⌊q + 1 / 2⌋

/-- The ETA record `calculateETA` returns (`completionDate`, the further
derived display value `now + hoursRemaining·3600000` of the same unrounded
quantity, is not modelled separately). -/
structure EtaReport where
  hoursRemaining : Option ℤ
  daysRemaining : Option ℤ
deriving DecidableEq, Repr

/-- The unrounded `hoursRemaining` of `calculateETA` for progress `p`:
`remaining / requestsPerHour` with `totalEntries = 1025 * 6`,
`remaining = totalEntries * (1 - p/100)` and
`requestsPerHour = 60 / (25 / 60)` — the source hardcodes a 25-second
request interval here (= 144 requests/hour) regardless of the configured
`minTime`. -/
def etaHoursRemaining (p : ℕ) : ℚ :=
  (1025 * 6 * (1 - (p : ℚ) / 100)) / (60 / (25 / 60))

/-- `calculateETA()`: `null` unless running with nonzero `cycleProgress`;
a stored `NaN` progress (modelled `none`) propagates `NaN` into the
report fields (`NaN === 0` is false in JS, so the early return does not
fire). -/
def calculateETA (isRunning : Bool) (cycleProgress : Option ℕ) :
    Option EtaReport :=
  if isRunning = false then none
  else
    match cycleProgress with
    | some 0 => none
    | some p =>
        some { hoursRemaining := some (jsRound (etaHoursRemaining p))
               daysRemaining := some (jsRound (etaHoursRemaining p / 24)) }
    | none => some { hoursRemaining := none, daysRemaining := none }

/-- The spec formula for the rounded `hoursRemaining`, written from the
spec text: `remainingPairs / effectiveThroughputPerHour` where
`remainingPairs = totalPairs × (1 − cycleProgressPercent/100)` and
`effectiveThroughputPerHour = 3600000 / minIntervalMs` is derived from the
configured minimum inter-request interval. Used to compare the code
against the spec; not a translation of the source. -/
def specEtaHoursRemaining (minIntervalMs : ℚ) (p : ℕ) : ℤ :=
  jsRound ((1025 * 6 * (1 - (p : ℚ) / 100)) / (3600000 / minIntervalMs))

/-- The default continuous-refresh `minTime` from the constructor:
`Number(process.env.TRENDS_CONTINUOUS_MIN_TIME_MS) ||
Number(process.env.TRENDS_MIN_TIME_MS) || 45000`, with both environment
variables unset. -/
def defaultContinuousMinTimeMs : ℚ := 45000

/-- What `getStatus()` returns: `{ isRunning, isPaused, stats,
estimatedCompletion: this.calculateETA() }`. -/
structure StatusReport where
  isRunning : Bool
  isPaused : Bool
  stats : Stats
  estimatedCompletion : Option EtaReport
deriving DecidableEq, Repr

/-- `getStatus()`. Total: it answers on every state. -/
def getStatus (st : ServiceState) : StatusReport :=
  { isRunning := st.isRunning
    isPaused := st.isPaused
    stats := st.stats
    estimatedCompletion := calculateETA st.isRunning st.stats.cycleProgress }

/-! ## Persistence (`saveData` write paths and crash states) -/

/-- The two files the persistence layer touches: the durable data file
and the temporary file (`dataPath + '.tmp'`); `none` = the path does not
exist. -/
structure DiskState where
  dataFile : Option String
  tmpFile : Option String
deriving DecidableEq, Repr

/-- All prefixes of a string: the possible on-disk contents of a file if
the process crashes midway through a non-atomic `writeFile` of that
string (from the empty prefix up to the complete content). -/
def strPrefixes (s : String) : List String :=
  (List.range (s.length + 1)).map (fun k => s.take k)

/-- The reachable disk states when `ContinuousRefreshService.saveData`
persists `content`, for every crash point: the source writes the
serialized document directly to the data path
(`fs.writeFile(this.dataPath, JSON.stringify(data, null, 2))`), with no
temporary file and no rename, so a crash mid-write leaves an arbitrary
prefix of `content` at the data path. -/
def contSaveCrashStates (fs : DiskState) (content : String) :
    List DiskState :=
  fs :: (strPrefixes content).map (fun p => { fs with dataFile := some p })

/-- The reachable disk states when `HarvestService.saveData` persists
`content`, for every crash point: write `content` to the temp path
(a crash leaves a prefix of it there), then atomically rename the temp
path over the data path. -/
def harvestSaveCrashStates (fs : DiskState) (content : String) :
    List DiskState :=
  (fs :: (strPrefixes content).map (fun p => { fs with tmpFile := some p }))
    ++ [{ dataFile := some content, tmpFile := none }]

/-! ## HarvestService -/

/-- `HarvestService` metadata:
`{ totalPokemon, successRate, lastHarvest }`. -/
structure HarvestMeta where
  totalPokemon : ℕ
  successRate : ℚ
  lastHarvest : Option ℤ
deriving DecidableEq, Repr

/-- The `HarvestService` data document: `{ version, lastUpdate, countries,
topicIds, metadata }`. -/
structure HarvestData where
  version : Option ℤ
  lastUpdate : Option ℤ
  countries : List (String × List (String × StoredEntry))
  topicIds : List (String × String)
  metadata : HarvestMeta
deriving DecidableEq, Repr

/-- `createEmptyData()`: fresh document stamped with the current time. -/
def createEmptyData (now : ℤ) : HarvestData :=
  { version := some now
    lastUpdate := some now
    countries := []
    topicIds := []
    metadata := { totalPokemon := 0, successRate := 0, lastHarvest := none } }

/-- `loadExistingData()`: reads the file if it exists and parses it; an
absent file, a read error, or unparseable content all yield
`createEmptyData()` (errors are caught, never rethrown). Input encoding
as for `loadData`. -/
def loadExistingData (r : Option (Option HarvestData)) (now : ℤ) :
    HarvestData :=
  match r with
  | some (some d) => d
  | _ => createEmptyData now

/-- `getFallbackScore(pokemonName)`: `seed` = sum of the name's character
codes, result `Math.min(60, 30 + (seed % 50))` — deterministic in the
name and bounded. (`charCodeAt` and `Char.toNat` agree on the
basic-multilingual-plane names this repository uses.) -/
def getFallbackScore (name : String) : ℕ :=
  min 60 (30 + (name.toList.foldl (fun acc c => acc + c.toNat) 0) % 50)

/-- The retries-exhausted tail of `HarvestService.fetchAndSave`: store a
synthetic fallback entry `{ score: getFallbackScore(name), fallback: true,
lastFetched: now, error }` for (country, name). -/
def harvestStoreFallback (hd : HarvestData) (name country : String)
    (errMsg : Option String) (now : ℤ) : HarvestData :=
  let entry : StoredEntry :=
    { score := some (getFallbackScore name : ℕ), avgScore := none,
      maxScore := none, estimatedSearches := none, estimatedLabel := none,
      topicId := none, fallback := true,
      error := some (errMsg.getD "Unknown error"), lastFetched := some now }
  let countryMap := (alookup hd.countries country).getD []
  { hd with countries := aupsert hd.countries country (aupsert countryMap name entry) }

/-! ## Proof-layer definitions -/

/-- Descending-by-age sortedness (the state of the `entries` array after
`entries.sort((a, b) => b.age - a.age)`). -/
def SortedDesc (l : List SelEntry) : Prop :=
  l.Pairwise (fun a b => b.age ≤ a.age)

/-- Folding step for `firstMaxStale`: the stale-candidate kept when one
more entry `e` (earlier in enumeration order than the current candidate)
is taken into account. -/
def combineMax (e : SelEntry) : Option SelEntry → Option SelEntry
  | none => if isStale e then some e else none
  | some m => if isStale e && decide (m.age ≤ e.age) then some e else some m

/-- The earliest entry, in enumeration order, among the stale entries of
maximum age (`none` when no entry is stale): the reference value the
selector is proved to return. -/
def firstMaxStale : List SelEntry → Option SelEntry
  | [] => none
  | x :: xs => combineMax x (firstMaxStale xs)

/-! ## Concrete fixtures for witnesses and counterexamples -/

/-- A one-item universe. -/
def psA : List Pokemon := [⟨1, "a"⟩]

/-- A reference instant (epoch ms). -/
def nowA : ℤ := 1000000000000

/-- The selector entry for the pair ("a", "US") with no stored data. -/
def entryAUS : SelEntry :=
  { name := "a", id := 1, country := "US", age := ⊤, lastFetched := none }

/-- A stored entry fetched exactly `staleThresholdMs` before `nowA`. -/
def storedAtThreshold : StoredEntry :=
  { score := none, avgScore := none, maxScore := none,
    estimatedSearches := none, estimatedLabel := none, topicId := none,
    fallback := false, error := none,
    lastFetched := some (nowA - staleThresholdMs) }

/-- A data file where every pair of the `psA` universe has age exactly
`staleThresholdMs` at `nowA`. -/
def dAtThreshold : DataFile :=
  { countries := countriesList.map (fun c => (c, [("a", storedAtThreshold)]))
    metadata := { lastUpdate := none } }

/-- A stored entry fetched one millisecond before `nowA` (fresh). -/
def storedFresh : StoredEntry :=
  { score := none, avgScore := none, maxScore := none,
    estimatedSearches := none, estimatedLabel := none, topicId := none,
    fallback := false, error := none, lastFetched := some (nowA - 1) }

/-- A data file where every pair of the `psA` universe is fresh at
`nowA`. -/
def dAllFresh : DataFile :=
  { countries := countriesList.map (fun c => (c, [("a", storedFresh)]))
    metadata := { lastUpdate := none } }

/-- Zeroed scheduler stats. -/
def statsZero : Stats :=
  { lastRun := none, successCount := 0, failureCount := 0,
    blockedCount := 0, currentPokemon := none, cycleProgress := some 0 }

/-- A running scheduler over an empty data file. -/
def stRunning : ServiceState :=
  { isRunning := true, isPaused := false, stats := statsZero,
    data := emptyDataFile }

/-! ## Lemmas about the stable descending sort -/

theorem mem_insertByAge {e x : SelEntry} {l : List SelEntry} :
    x ∈ insertByAge e l ↔ x = e ∨ x ∈ l := by
  induction l with
  | nil => simp [insertByAge]
  | cons a as ih =>
    by_cases h : a.age ≤ e.age
    · simp [insertByAge, h, List.mem_cons]
    · simp only [insertByAge, if_neg h, List.mem_cons, ih]
      tauto

theorem countP_insertByAge (p : SelEntry → Bool) (e : SelEntry)
    (l : List SelEntry) :
    (insertByAge e l).countP p = ((e :: l).countP p) := by
  induction l with
  | nil => simp [insertByAge]
  | cons a as ih =>
    by_cases h : a.age ≤ e.age
    · simp [insertByAge, h]
    · simp only [insertByAge, if_neg h, List.countP_cons] at ih ⊢
      omega

theorem length_insertByAge (e : SelEntry) (l : List SelEntry) :
    (insertByAge e l).length = l.length + 1 := by
  induction l with
  | nil => simp [insertByAge]
  | cons a as ih =>
    by_cases h : a.age ≤ e.age
    · simp [insertByAge, h]
    · simp [insertByAge, h, ih]

theorem sortedDesc_insertByAge {e : SelEntry} {l : List SelEntry}
    (h : SortedDesc l) : SortedDesc (insertByAge e l) := by
  induction l with
  | nil => simp [insertByAge, SortedDesc]
  | cons a as ih =>
    rcases List.pairwise_cons.mp h with ⟨ha, has⟩
    by_cases hc : a.age ≤ e.age
    · rw [insertByAge, if_pos hc]
      exact List.pairwise_cons.mpr
        ⟨fun b hb => by
          rcases List.mem_cons.mp hb with rfl | hb'
          · exact hc
          · exact le_trans (ha b hb') hc,
         h⟩
    · rw [insertByAge, if_neg hc]
      exact List.pairwise_cons.mpr
        ⟨fun b hb => by
          rcases mem_insertByAge.mp hb with rfl | hb'
          · exact le_of_not_le hc
          · exact ha b hb',
         ih has⟩

theorem sortedDesc_sortByAgeDesc (l : List SelEntry) :
    SortedDesc (sortByAgeDesc l) := by
  induction l with
  | nil => exact List.Pairwise.nil
  | cons a as ih => exact sortedDesc_insertByAge ih

theorem countP_sortByAgeDesc (p : SelEntry → Bool) (l : List SelEntry) :
    (sortByAgeDesc l).countP p = l.countP p := by
  induction l with
  | nil => rfl
  | cons a as ih =>
    rw [sortByAgeDesc, countP_insertByAge, List.countP_cons, List.countP_cons, ih]

theorem length_sortByAgeDesc (l : List SelEntry) :
    (sortByAgeDesc l).length = l.length := by
  induction l with
  | nil => rfl
  | cons a as ih => rw [sortByAgeDesc, length_insertByAge, ih, List.length_cons]

theorem find?_insertByAge (e : SelEntry) {l : List SelEntry}
    (h : SortedDesc l) :
    (insertByAge e l).find? isStale = combineMax e (l.find? isStale) := by
  induction l with
  | nil => cases hse : isStale e <;> simp [insertByAge, combineMax, List.find?, hse]
  | cons a as ih =>
    rcases List.pairwise_cons.mp h with ⟨ha, has⟩
    by_cases hc : a.age ≤ e.age
    · rw [insertByAge, if_pos hc]
      by_cases hse : isStale e
      · cases hm : (a :: as).find? isStale with
        | none => simp [List.find?_cons, hse, combineMax, hm]
        | some m =>
          have hmem : m ∈ a :: as := List.mem_of_find?_eq_some hm
          have hle : m.age ≤ e.age := by
            rcases List.mem_cons.mp hmem with rfl | hmem'
            · exact hc
            · exact le_trans (ha m hmem') hc
          simp [List.find?_cons, hse, combineMax, hm, hle]
      · cases hm : (a :: as).find? isStale with
        | none => simp [List.find?_cons, hse, combineMax, hm]
        | some m => simp [List.find?_cons, hse, combineMax, hm]
    · rw [insertByAge, if_neg hc]
      by_cases hsa : isStale a
      · simp [List.find?_cons, hsa, combineMax, hc]
      · rw [List.find?_cons_of_neg _ (by simpa using hsa), ih has,
          List.find?_cons_of_neg _ (by simpa using hsa)]

theorem find?_sortByAgeDesc (l : List SelEntry) :
    (sortByAgeDesc l).find? isStale = firstMaxStale l := by
  induction l with
  | nil => rfl
  | cons a as ih =>
    rw [sortByAgeDesc, find?_insertByAge a (sortedDesc_sortByAgeDesc as), ih,
      firstMaxStale]

theorem firstMaxStale_mem_stale {l : List SelEntry} {m : SelEntry}
    (h : firstMaxStale l = some m) : m ∈ l ∧ isStale m = true := by
  induction l generalizing m with
  | nil => cases h
  | cons a as ih =>
    rw [firstMaxStale] at h
    cases ho : firstMaxStale as with
    | none =>
      rw [ho] at h
      by_cases hsa : isStale a
      · rw [combineMax, if_pos hsa] at h
        cases h
        exact ⟨List.mem_cons_self _ _, hsa⟩
      · rw [combineMax, if_neg hsa] at h
        cases h
    | some m' =>
      rw [ho] at h
      by_cases hcond : isStale a && decide (m'.age ≤ a.age)
      · rw [combineMax, if_pos hcond] at h
        cases h
        simp only [Bool.and_eq_true] at hcond
        exact ⟨List.mem_cons_self _ _, hcond.1⟩
      · rw [combineMax, if_neg hcond] at h
        cases h
        rcases ih ho with ⟨hmem, hst⟩
        exact ⟨List.mem_cons_of_mem _ hmem, hst⟩

theorem firstMaxStale_eq_none_iff {l : List SelEntry} :
    firstMaxStale l = none ↔ ∀ e ∈ l, isStale e = false := by
  induction l with
  | nil => simp [firstMaxStale]
  | cons a as ih =>
    rw [firstMaxStale]
    cases ho : firstMaxStale as with
    | none =>
      by_cases hsa : isStale a = true
      · rw [combineMax, if_pos hsa]
        constructor
        · intro h; cases h
        · intro hall
          exact absurd (hall a (List.mem_cons_self _ _)) (by simp [hsa])
      · rw [combineMax, if_neg hsa]
        constructor
        · intro _ e he
          rcases List.mem_cons.mp he with rfl | he'
          · simpa using hsa
          · exact (ih.mp ho) e he'
        · intro _
          rfl
    | some m =>
      have hm := firstMaxStale_mem_stale ho
      constructor
      · intro hnone
        exfalso
        by_cases hcond : (isStale a && decide (m.age ≤ a.age)) = true
        · rw [combineMax, if_pos hcond] at hnone; cases hnone
        · rw [combineMax, if_neg hcond] at hnone; cases hnone
      · intro hall
        exfalso
        have h1 : isStale m = false := hall m (List.mem_cons_of_mem _ hm.1)
        rw [hm.2] at h1
        cases h1

theorem firstMaxStale_spec {l : List SelEntry} {e : SelEntry}
    (h : firstMaxStale l = some e) :
    isStale e = true ∧ (∀ x ∈ l, isStale x = true → x.age ≤ e.age) ∧
      l.find? (fun x => isStale x && decide (x.age = e.age)) = some e := by
  induction l generalizing e with
  | nil => cases h
  | cons a as ih =>
    rw [firstMaxStale] at h
    cases ho : firstMaxStale as with
    | none =>
      rw [ho] at h
      by_cases hsa : isStale a = true
      · rw [combineMax, if_pos hsa] at h
        cases h
        refine ⟨hsa, ?_, ?_⟩
        · intro x hx hsx
          rcases List.mem_cons.mp hx with rfl | hx'
          · exact le_refl _
          · exact absurd hsx (by simp [firstMaxStale_eq_none_iff.mp ho x hx'])
        · exact List.find?_cons_of_pos _ (by simp [hsa])
      · rw [combineMax, if_neg hsa] at h
        cases h
    | some m =>
      rw [ho] at h
      obtain ⟨hm1, hm2, hm3⟩ := ih ho
      by_cases hcond : (isStale a && decide (m.age ≤ a.age)) = true
      · rw [combineMax, if_pos hcond] at h
        cases h
        simp only [Bool.and_eq_true, decide_eq_true_eq] at hcond
        refine ⟨hcond.1, ?_, ?_⟩
        · intro x hx hsx
          rcases List.mem_cons.mp hx with rfl | hx'
          · exact le_refl _
          · exact le_trans (hm2 x hx' hsx) hcond.2
        · exact List.find?_cons_of_pos _ (by simp [hcond.1])
      · rw [combineMax, if_neg hcond] at h
        cases h
        simp only [Bool.and_eq_true, decide_eq_true_eq, not_and] at hcond
        refine ⟨hm1, ?_, ?_⟩
        · intro x hx hsx
          rcases List.mem_cons.mp hx with rfl | hx'
          · exact le_of_not_le (hcond hsx)
          · exact hm2 x hx' hsx
        · refine (List.find?_cons_of_neg _ ?_).trans hm3
          by_cases hsa : isStale a = true
          · have hne : a.age ≠ e.age := ne_of_lt (lt_of_not_le (hcond hsa))
            simp [hsa, hne]
          · simp [hsa]

theorem getNext_eq_firstMaxStale (d : DataFile) (ps : List Pokemon)
    (now : ℤ) :
    getNextPokemonToRefresh d ps now = firstMaxStale (buildEntries d ps now) := by
  unfold getNextPokemonToRefresh selectorRun
  exact find?_sortByAgeDesc _

theorem length_buildEntries (d : DataFile) (ps : List Pokemon) (now : ℤ) :
    (buildEntries d ps now).length = 6 * ps.length := by
  induction ps with
  | nil => rfl
  | cons p ps ih =>
    have hcons : buildEntries d (p :: ps) now
        = (countriesList.map (fun c =>
            ({ name := p.name, id := p.id, country := c,
               age := entryAge d c p.name now,
               lastFetched := lookupLastFetched d c p.name } : SelEntry)))
          ++ buildEntries d ps now := rfl
    rw [hcons, List.length_append, ih]
    simp [countriesList]
    ring

theorem cycleProgressOf_eq (d : DataFile) (ps : List Pokemon) (now : ℤ) :
    cycleProgressOf d ps now =
      if (buildEntries d ps now).length = 0 then none
      else some (mathRound100 ((buildEntries d ps now).countP isFresh)
        (buildEntries d ps now).length) := by
  unfold cycleProgressOf selectorRun
  dsimp only
  rw [← List.countP_eq_length_filter, countP_sortByAgeDesc,
    length_sortByAgeDesc]

theorem mathRound100_self {n : ℕ} (h : 0 < n) : mathRound100 n n = 100 := by
  unfold mathRound100
  have h1 : 200 * n + n = n + 2 * n * 100 := by ring
  rw [h1, Nat.add_mul_div_left _ _ (by omega : 0 < 2 * n),
    Nat.div_eq_of_lt (by omega)]

theorem mathRound100_le {r n : ℕ} (hr : r ≤ n) (hn : 0 < n) :
    mathRound100 r n ≤ 100 := by
  have h2 : mathRound100 r n ≤ mathRound100 n n :=
    Nat.div_le_div_right (by omega)
  rw [mathRound100_self hn] at h2
  exact h2

/-- **C1.** For every data file, item universe and instant, the selector
`getNextPokemonToRefresh` (the sorted-descending-then-find composition
over the full enumeration `buildEntries` of (item, country) pairs, ages
`now − lastFetched` or `∞` when missing) returns `null` exactly when no
pair's age exceeds the 7-day threshold; otherwise it returns a stale pair
of maximum age, and among pairs tying at that maximum age it returns the
first in the fixed enumeration order (`find?` over `buildEntries`), so the
output is a deterministic function of the input. -/
theorem c1_selector_max_stale (d : DataFile) (ps : List Pokemon) (now : ℤ) :
    (getNextPokemonToRefresh d ps now = none ↔
      ∀ e ∈ buildEntries d ps now, isStale e = false) ∧
    (∀ e, getNextPokemonToRefresh d ps now = some e →
      isStale e = true ∧
      (∀ x ∈ buildEntries d ps now, isStale x = true → x.age ≤ e.age) ∧
      (buildEntries d ps now).find?
        (fun x => isStale x && decide (x.age = e.age)) = some e) := by
  rw [getNext_eq_firstMaxStale]
  exact ⟨firstMaxStale_eq_none_iff, fun e he => firstMaxStale_spec he⟩

/-- Witness for C1: on the one-item universe with an empty data file, the
selector returns the ("a", "US") pair, and C1 applied there certifies it
is stale, of maximal age, and first in enumeration order among the
maximal stale pairs. -/
theorem c1_selector_max_stale_witness :
    isStale entryAUS = true ∧
      (∀ x ∈ buildEntries emptyDataFile psA nowA,
        isStale x = true → x.age ≤ entryAUS.age) ∧
      (buildEntries emptyDataFile psA nowA).find?
        (fun x => isStale x && decide (x.age = entryAUS.age)) = some entryAUS :=
  (c1_selector_max_stale emptyDataFile psA nowA).2 entryAUS (by decide)

/-- **C6 counterexample.** On the one-item universe with every pair
fetched exactly 7 days ago (age = threshold for all six pairs, so every
pair's age is ≤ the threshold, i.e. every pair is "fresh" in the claim's
sense), the selector does return `null`, but `cycleProgress` computes to
0, not 100: the source counts a pair as refreshed only when
`age < 7 days` strictly, so boundary pairs are neither stale nor counted
fresh. -/
theorem c6_cycle_complete_counterexample :
    ((buildEntries dAtThreshold psA nowA).all
      (fun e => decide (e.age ≤ (staleThresholdMs : WithTop ℤ)))) = true ∧
    getNextPokemonToRefresh dAtThreshold psA nowA = none ∧
    cycleProgressOf dAtThreshold psA nowA = some 0 := by
  refine ⟨by decide, by decide, by decide⟩

/-- **C6 amended.** If every pair's age is ≤ the threshold, the selector
returns `null`; and `cycleProgress` computes to 100 when the universe is
nonempty and every pair's age is strictly below the threshold (the
source's freshness test is strict, so pairs exactly at the threshold
yield `null` without 100% progress, and on an empty universe the progress
division is NaN). -/
theorem c6_cycle_complete_amended (d : DataFile) (ps : List Pokemon)
    (now : ℤ) :
    ((∀ e ∈ buildEntries d ps now, e.age ≤ (staleThresholdMs : WithTop ℤ)) →
      getNextPokemonToRefresh d ps now = none) ∧
    (ps ≠ [] →
      (∀ e ∈ buildEntries d ps now, e.age < (staleThresholdMs : WithTop ℤ)) →
      cycleProgressOf d ps now = some 100) := by
  constructor
  · intro hall
    rw [getNext_eq_firstMaxStale]
    refine firstMaxStale_eq_none_iff.mpr (fun e he => ?_)
    unfold isStale
    rw [decide_eq_false_iff_not]
    exact not_lt.mpr (hall e he)
  · intro hne hall
    rw [cycleProgressOf_eq]
    have hlen := length_buildEntries d ps now
    have hpos : 0 < (buildEntries d ps now).length := by
      have := List.length_pos.mpr hne
      omega
    rw [if_neg (by omega)]
    have hcount : (buildEntries d ps now).countP isFresh
        = (buildEntries d ps now).length := by
      refine List.countP_eq_length.mpr (fun e he => ?_)
      unfold isFresh
      exact decide_eq_true (hall e he)
    rw [hcount, mathRound100_self hpos]

/-- Witness for C6 amended: on the all-fresh one-item data file, both
branches fire — the selector returns `null` and progress is 100. -/
theorem c6_cycle_complete_amended_witness :
    getNextPokemonToRefresh dAllFresh psA nowA = none ∧
    cycleProgressOf dAllFresh psA nowA = some 100 :=
  ⟨(c6_cycle_complete_amended dAllFresh psA nowA).1 (by decide),
   (c6_cycle_complete_amended dAllFresh psA nowA).2 (by decide) (by decide)⟩

/-- **C10 counterexample.** On the empty item universe — exactly what
`getAllPokemon` returns when the upstream species list cannot be fetched —
the `entries` array is empty and `refreshedCount / entries.length` is
`0 / 0 = NaN` in JS; `Math.round(NaN)` is `NaN` (modelled `none`), so the
`cycleProgress` stored by the selector and surfaced by `getStatus` is not
an integer in [0, 100]. -/
theorem c10_progress_range_counterexample :
    cycleProgressOf emptyDataFile [] nowA = none := by decide

/-- **C10 amended.** For every nonempty item universe, the
`cycleProgress` computed by the selector is a well-defined integer between
0 and 100; for the empty universe the division 0/0 yields NaN, which is
stored in `stats.cycleProgress` and surfaced by `getStatus`. -/
theorem c10_progress_range_amended (d : DataFile) (ps : List Pokemon)
    (now : ℤ) (h : ps ≠ []) :
    ∃ k : ℕ, cycleProgressOf d ps now = some k ∧ k ≤ 100 := by
  rw [cycleProgressOf_eq]
  have hlen := length_buildEntries d ps now
  have hpos : 0 < (buildEntries d ps now).length := by
    have := List.length_pos.mpr h
    omega
  rw [if_neg (by omega)]
  exact ⟨_, rfl, mathRound100_le (List.countP_le_length _) hpos⟩

/-- Witness for C10 amended, at the one-item universe over the empty data
file. -/
theorem c10_progress_range_amended_witness :
    ∃ k : ℕ, cycleProgressOf emptyDataFile psA nowA = some k ∧ k ≤ 100 :=
  c10_progress_range_amended emptyDataFile psA nowA (by decide)

/-! ## Scheduler transition claims -/

theorem alookup_aupsert {α : Type} (l : List (String × α)) (k : String)
    (v : α) : alookup (aupsert l k v) k = some v := by
  induction l with
  | nil => simp [aupsert, alookup]
  | cons a as ih =>
    obtain ⟨k', v'⟩ := a
    by_cases h : k' = k
    · simp [aupsert, h, alookup]
    · simp [aupsert, h, alookup, ih]

/-- **C2.** When a fetch outcome is classified as a hard block while the
scheduler is Running (isRunning, not paused), the loop increments
`blockedCount`, transitions to paused without touching the data file,
schedules an automatic `resume()` 24 hours later, reaches exactly the
state `pause()` (the manual-pause function) produces on the
counter-updated state, and `getStatus` still answers, reflecting the
paused state and the new counter. -/
theorem c2_hard_block_pauses (st : ServiceState) (p : SelEntry) (now : ℤ)
    (h1 : st.isRunning = true) (_h2 : st.isPaused = false) :
    (handleResult st p .blocked now).1.stats.blockedCount
        = st.stats.blockedCount + 1 ∧
    (handleResult st p .blocked now).1.isPaused = true ∧
    (handleResult st p .blocked now).1.data = st.data ∧
    (handleResult st p .blocked now).2 = some (now + 24 * 60 * 60 * 1000) ∧
    (handleResult st p .blocked now).1
      = pause { st with stats := { st.stats with
          blockedCount := st.stats.blockedCount + 1, lastRun := some now } } ∧
    (getStatus (handleResult st p .blocked now).1).isRunning = true ∧
    (getStatus (handleResult st p .blocked now).1).isPaused = true ∧
    (getStatus (handleResult st p .blocked now).1).stats.blockedCount
        = st.stats.blockedCount + 1 := by
  refine ⟨rfl, rfl, rfl, rfl, rfl, ?_, rfl, rfl⟩
  simp [getStatus, handleResult, pause, h1]

/-- Witness for C2 at a concrete running state. -/
theorem c2_hard_block_pauses_witness :
    (handleResult stRunning entryAUS .blocked 0).1.stats.blockedCount
        = stRunning.stats.blockedCount + 1 ∧
    (handleResult stRunning entryAUS .blocked 0).1.isPaused = true ∧
    (handleResult stRunning entryAUS .blocked 0).1.data = stRunning.data ∧
    (handleResult stRunning entryAUS .blocked 0).2
        = some (0 + 24 * 60 * 60 * 1000) ∧
    (handleResult stRunning entryAUS .blocked 0).1
      = pause { stRunning with stats := { stRunning.stats with
          blockedCount := stRunning.stats.blockedCount + 1,
          lastRun := some 0 } } ∧
    (getStatus (handleResult stRunning entryAUS .blocked 0).1).isRunning
        = true ∧
    (getStatus (handleResult stRunning entryAUS .blocked 0).1).isPaused
        = true ∧
    (getStatus (handleResult stRunning entryAUS .blocked 0).1).stats.blockedCount
        = stRunning.stats.blockedCount + 1 :=
  c2_hard_block_pauses stRunning entryAUS 0 rfl rfl

/-- **C3 counterexample.** On the one-item universe with no stored data,
the selector returns ("a", "US"); after a `SoftFailure` on that pair the
scheduler has incremented `failureCount` but left the data file
unchanged (no fallback upsert, no `lastFetched` update), and immediately
re-querying the selector returns the same pair again — contradicting the
claim that the upsert prevents reselection. -/
theorem c3_soft_failure_counterexample :
    getNextPokemonToRefresh stRunning.data psA nowA = some entryAUS ∧
    (handleResult stRunning entryAUS (.failure "boom") nowA).1.data
      = stRunning.data ∧
    (handleResult stRunning entryAUS (.failure "boom") nowA).1.stats.failureCount
      = 1 ∧
    getNextPokemonToRefresh
      (handleResult stRunning entryAUS (.failure "boom") nowA).1.data psA nowA
      = some entryAUS := by
  refine ⟨by decide, by decide, by decide, by decide⟩

/-- **C3 amended.** After a `SoftFailure` the continuous scheduler only
increments `failureCount`: the data file, the pause flag and the timer
queue are untouched, so the failed pair's age does not advance and it can
be selected again. The synthetic-fallback upsert the claim describes
exists only in `HarvestService.fetchAndSave` after its retries are
exhausted: there the (country, name) entry becomes a fallback entry
carrying `getFallbackScore(name)` — deterministic in the name and bounded
to [30, 60] — with `fallback = true`, the error message, and
`lastFetched = now` (and it increments `fallbackCount`, not
`failureCount`). -/
theorem c3_soft_failure_amended (st : ServiceState) (p : SelEntry)
    (err : String) (now : ℤ) (hd : HarvestData) (name country : String)
    (msg : Option String) (hnow : ℤ) :
    (handleResult st p (.failure err) now).1.data = st.data ∧
    (handleResult st p (.failure err) now).1.stats.failureCount
        = st.stats.failureCount + 1 ∧
    (handleResult st p (.failure err) now).2 = none ∧
    (handleResult st p (.failure err) now).1.isPaused = st.isPaused ∧
    lookupEntry (harvestStoreFallback hd name country msg hnow).countries
        country name
      = some { score := some ((getFallbackScore name : ℕ) : ℚ),
               avgScore := none, maxScore := none,
               estimatedSearches := none, estimatedLabel := none,
               topicId := none, fallback := true,
               error := some (msg.getD "Unknown error"),
               lastFetched := some hnow } ∧
    30 ≤ getFallbackScore name ∧ getFallbackScore name ≤ 60 := by
  refine ⟨rfl, rfl, rfl, rfl, ?_, ?_, ?_⟩
  · simp [lookupEntry, harvestStoreFallback, alookup_aupsert]
  · unfold getFallbackScore
    exact le_min (by omega) (by omega)
  · exact min_le_left _ _

/-! ## Blocking-classifier claims -/

/-- **C4 counterexample.** A thrown fetch error whose message contains
"429" (and none of the classifier's actual markers) is classified as a
soft failure, not a hard block: `fetchWithBlockDetection` never checks
the rate-limit signature, so the scheduler does not pause on it. -/
theorem c4_rate_limit_counterexample :
    fetchWithBlockDetection (.thrown "Request failed with status code 429")
      = .failure "Request failed with status code 429" ∧
    fetchWithBlockDetection (.thrown "Request failed with status code 429")
      ≠ .blocked := by
  refine ⟨by decide, by decide⟩

/-- **C4 amended.** The scheduler's classifier marks a thrown error as a
hard block only when its message contains "Unexpected token" or
"302 Moved"; every other thrown message — including any containing "429",
"too many requests" or "rate limit" — is a soft failure. (The rate-limit
signature is matched only inside the fetch capability in `server.js`,
where it merely increments a metrics counter and lengthens the retry
cooldown; it never reaches the scheduler as a block.) -/
theorem c4_rate_limit_amended (msg : String)
    (h1 : strIncludes msg "Unexpected token" = false)
    (h2 : strIncludes msg "302 Moved" = false) :
    fetchWithBlockDetection (.thrown msg) = .failure msg := by
  simp [fetchWithBlockDetection, h1, h2]

/-- Witness for C4 amended on a message carrying all three rate-limit
signatures. -/
theorem c4_rate_limit_amended_witness :
    strIncludes "HTTP 429 rate limit too many requests" "Unexpected token"
        = false ∧
    fetchWithBlockDetection (.thrown "HTTP 429 rate limit too many requests")
      = .failure "HTTP 429 rate limit too many requests" :=
  ⟨by decide, c4_rate_limit_amended _ (by decide) (by decide)⟩

/-! ## Persistence claims -/

/-- **C5 counterexample.** `ContinuousRefreshService.saveData` writes the
serialized document directly to the data path (no temp file, no rename):
a crash mid-write can leave the durable file holding a proper prefix of
the new content ("ne" here) — neither the previously persisted document
("old") nor the full new one ("new"), so the previous document is lost
and the file is observable half-written. -/
theorem c5_atomic_persistence_counterexample :
    (({ dataFile := some "ne", tmpFile := none } : DiskState)
      ∈ contSaveCrashStates { dataFile := some "old", tmpFile := none } "new") ∧
    (some "ne" : Option String) ≠ some "old" ∧
    (some "ne" : Option String) ≠ some "new" := by
  refine ⟨by decide, by decide, by decide⟩

/-- **C5 amended.** `HarvestService.saveData` does persist atomically:
it writes the full serialized document to `dataPath + '.tmp'` and renames
it over the data path, so at every crash point the durable file holds
either the previously persisted document or the complete new one.
`ContinuousRefreshService.saveData`, by contrast, writes directly to the
data path and has no such guarantee (see the counterexample). -/
theorem c5_atomic_persistence_amended (fs : DiskState) (content : String)
    (fs2 : DiskState) (h : fs2 ∈ harvestSaveCrashStates fs content) :
    fs2.dataFile = fs.dataFile ∨ fs2.dataFile = some content := by
  simp only [harvestSaveCrashStates, List.mem_append, List.mem_cons,
    List.mem_map, List.mem_singleton, List.not_mem_nil, or_false] at h
  rcases h with (rfl | ⟨p, _, rfl⟩) | rfl
  · exact Or.inl rfl
  · exact Or.inl rfl
  · exact Or.inr rfl

/-- Witness for C5 amended: the completed-rename crash state of a
concrete harvest save keeps a full document at the data path. -/
theorem c5_atomic_persistence_amended_witness :
    (({ dataFile := some "new", tmpFile := none } : DiskState).dataFile
        = ({ dataFile := some "old", tmpFile := none } : DiskState).dataFile) ∨
    (({ dataFile := some "new", tmpFile := none } : DiskState).dataFile
        = some "new") :=
  c5_atomic_persistence_amended { dataFile := some "old", tmpFile := none }
    "new" { dataFile := some "new", tmpFile := none } (by decide)

/-- **C8.** For every failing disk state — document absent, unreadable,
or unparseable — `ContinuousRefreshService.loadData` returns the empty
dataset (`countries = {}`, metadata without a `lastUpdate` value) and
`HarvestService.loadExistingData` returns `createEmptyData()` (empty
country map, `metadata.lastHarvest = null`); both are total functions in
this embedding (every error branch is caught and mapped to the empty
document, never rethrown). -/
theorem c8_load_start_fresh (r : Option (Option DataFile))
    (h : r = none ∨ r = some none) (r2 : Option (Option HarvestData))
    (h2 : r2 = none ∨ r2 = some none) (now : ℤ) :
    loadData r = emptyDataFile ∧
    (loadData r).countries = [] ∧
    (loadData r).metadata.lastUpdate = none ∧
    loadExistingData r2 now = createEmptyData now ∧
    (loadExistingData r2 now).countries = [] ∧
    (loadExistingData r2 now).metadata.lastHarvest = none := by
  rcases h with rfl | rfl <;> rcases h2 with rfl | rfl <;>
    simp [loadData, loadExistingData, emptyDataFile, createEmptyData]

/-- Witness for C8: absent continuous-refresh file, corrupt harvest
file. -/
theorem c8_load_start_fresh_witness :
    loadData none = emptyDataFile ∧
    (loadData none).countries = [] ∧
    (loadData none).metadata.lastUpdate = none ∧
    loadExistingData (some none) 5 = createEmptyData 5 ∧
    (loadExistingData (some none) 5).countries = [] ∧
    (loadExistingData (some none) 5).metadata.lastHarvest = none :=
  c8_load_start_fresh none (Or.inl rfl) (some none) (Or.inr rfl) 5

/-! ## ETA claims -/

/-- **C9 counterexample.** At 50% progress, `calculateETA` reports
`hoursRemaining = 21` — `round(3075 / 144)`, using the hardcoded
`requestsPerHour = 60 / (25 / 60) = 144` — while the spec formula
(throughput derived from the configured `minTime`, default 45000 ms,
i.e. 80 requests/hour) gives `round(3075 / 80) = 38`. -/
theorem c9_eta_counterexample :
    calculateETA true (some 50)
      = some { hoursRemaining := some 21, daysRemaining := some 1 } ∧
    specEtaHoursRemaining defaultContinuousMinTimeMs 50 = 38 ∧
    (21 : ℤ) ≠ 38 := by
  refine ⟨?_, ?_, by decide⟩
  · norm_num [calculateETA, jsRound, etaHoursRemaining]
  · norm_num [specEtaHoursRemaining, defaultContinuousMinTimeMs, jsRound]

/-- **C9 amended.** `calculateETA` computes
`hoursRemaining = round(remainingPairs / throughput)` with
`remainingPairs = 1025·6·(1 − p/100)` as claimed, but the throughput is
the hardcoded `60 / (25 / 60) = 144` requests/hour — the spec formula
evaluated at a fixed 25000 ms interval — independent of the `minTime`
supplied at initialization (default 45000 ms). -/
theorem c9_eta_amended (p : ℕ) (hp : p ≠ 0) :
    calculateETA true (some p)
      = some { hoursRemaining := some (specEtaHoursRemaining 25000 p),
               daysRemaining := some (jsRound (etaHoursRemaining p / 24)) } := by
  have hform : specEtaHoursRemaining 25000 p = jsRound (etaHoursRemaining p) := by
    unfold specEtaHoursRemaining etaHoursRemaining jsRound
    norm_num
  cases p with
  | zero => exact absurd rfl hp
  | succ n => simp [calculateETA, hform]

/-- Witness for C9 amended at 50% progress. -/
theorem c9_eta_amended_witness :
    calculateETA true (some 50)
      = some { hoursRemaining := some (specEtaHoursRemaining 25000 50),
               daysRemaining := some (jsRound (etaHoursRemaining 50 / 24)) } :=
  c9_eta_amended 50 (by decide)

end PokeTrends
